import Mathlib

/-!
Shallow embedding of `api/v1alpha1/task.go` from tinkerbell/rufio:
the BMC Task data model, its condition sequence, and the operations
`SetCondition`, `WithTaskConditionMessage` and `HasCondition`.
Go slices become Lean lists, in-place pointer mutation becomes
functional update of the matched position, and the variadic option
functions become a list of `TaskCondition -> TaskCondition` functions
applied left to right.
-/

namespace Rufio

/-- `TaskConditionType` represents the condition of the BMC Task.
In Go it is a string-derived type (open enum). -/
abbrev TaskConditionType := String

/-- `TaskCompleted` represents successful completion of the BMC Task. -/
def TaskCompleted : TaskConditionType := "Completed"

/-- `TaskFailed` represents failure in BMC task execution. -/
def TaskFailed : TaskConditionType := "Failed"

/-- Modelled from the spec: `ConditionStatus` is defined outside `src/`
(in the surrounding platform types); the spec treats it as an opaque
equality-comparable string-like value with well-known values
`True` / `False`. -/
abbrev ConditionStatus := String

/-- Well-known `ConditionStatus` value `True`. -/
def ConditionTrue : ConditionStatus := "True"

/-- Well-known `ConditionStatus` value `False`. -/
def ConditionFalse : ConditionStatus := "False"

/-- Modelled from the spec: `PowerAction` is defined outside `src/`;
the spec describes it as a string enum of six values. -/
abbrev PowerAction := String

/-- Modelled from the spec: `BootDevice` is defined outside `src/`;
the spec describes it as an opaque identifier naming a bootable
device class. -/
abbrev BootDevice := String

/-- Modelled from the spec: `Connection` is defined outside `src/`;
the spec treats it as an opaque connectivity/credential reference. -/
abbrev Connection := String

/-- Modelled from the spec: timestamps (`metav1.Time`) are opaque
equality-comparable values at this layer. -/
abbrev MetaTime := Nat

/-- `OneTimeBootDeviceAction` from `task.go`: ordered boot devices and
the EFI boot flag. -/
structure OneTimeBootDeviceAction where
  devices : List BootDevice
  efiBoot : Bool
deriving DecidableEq, Repr

/-- `Action` from `task.go`: a struct with two optional variants, at
most one populated (enforced by the external schema layer). -/
structure Action where
  powerAction : Option PowerAction
  oneTimeBootDeviceAction : Option OneTimeBootDeviceAction
deriving DecidableEq, Repr

/-- `TaskSpec` from `task.go`: the requested action and the BMC
connection information. -/
structure TaskSpec where
  task : Action
  connection : Connection
deriving DecidableEq, Repr

/-- `TaskCondition` from `task.go`: a typed status observation with an
optional human-readable message (Go zero value: empty string). -/
structure TaskCondition where
  type : TaskConditionType
  status : ConditionStatus
  message : String
deriving DecidableEq, Repr

/-- `TaskStatus` from `task.go`: the ordered condition sequence plus
optional start and completion timestamps. -/
structure TaskStatus where
  conditions : List TaskCondition
  startTime : Option MetaTime
  completionTime : Option MetaTime
deriving DecidableEq, Repr

/-- `Task` from `task.go`. The embedded apimachinery `TypeMeta` and
`ObjectMeta` are external to this repository and modelled as opaque
values. -/
structure Task where
  typeMeta : String
  objectMeta : String
  spec : TaskSpec
  status : TaskStatus
deriving DecidableEq, Repr

/-- `TaskSetConditionOption` from `task.go`: in Go a function mutating
a `*TaskCondition`; here a function on `TaskCondition`. -/
abbrev TaskSetConditionOption := TaskCondition → TaskCondition

/-- The `for _, opt := range opts { opt(condition) }` loop at the end
of `SetCondition`: apply the options left to right. -/
def applyOpts (opts : List TaskSetConditionOption) (c : TaskCondition) : TaskCondition :=
  opts.foldl (fun c o => o c) c

/-- Core of `Task.SetCondition` acting on the condition slice: scan for
the first entry whose `Type` equals `cType`; if found, set its `Status`
and apply the options in place; otherwise append
`TaskCondition{Type: cType}` (zero-valued status and message), then set
its `Status` and apply the options. -/
def setConditionList (cs : List TaskCondition) (cType : TaskConditionType)
    (status : ConditionStatus) (opts : List TaskSetConditionOption) : List TaskCondition :=
  match cs with
  | [] => [applyOpts opts { type := cType, status := status, message := "" }]
  | c :: rest =>
    if c.type = cType then
      applyOpts opts { c with status := status } :: rest
    else
      c :: setConditionList rest cType status opts

/-- `Task.SetCondition` from `task.go`: applies the `cType` condition to
the task; if the condition already exists it is updated. Only
`Status.Conditions` is written. -/
def Task.SetCondition (t : Task) (cType : TaskConditionType) (status : ConditionStatus)
    (opts : List TaskSetConditionOption) : Task :=
  { t with status := { t.status with
      conditions := setConditionList t.status.conditions cType status opts } }

/-- `WithTaskConditionMessage` from `task.go`: option setting message
`m` on the condition. -/
def WithTaskConditionMessage (m : String) : TaskSetConditionOption :=
  fun c => { c with message := m }

/-- Core of `Task.HasCondition` acting on the condition slice: return
at the first entry whose `Type` equals `cType` with the comparison of
its status to `cStatus`; return `false` when the scan finds nothing. -/
def hasConditionList (cs : List TaskCondition) (cType : TaskConditionType)
    (cStatus : ConditionStatus) : Bool :=
  match cs with
  | [] => false
  | c :: rest =>
    if c.type = cType then decide (c.status = cStatus)
    else hasConditionList rest cType cStatus

/-- `Task.HasCondition` from `task.go`: checks whether the `cType`
condition is present with status `cStatus`. -/
def Task.HasCondition (t : Task) (cType : TaskConditionType) (cStatus : ConditionStatus) : Bool :=
  hasConditionList t.status.conditions cType cStatus

/-- The Go method `HasCondition` has a pointer receiver; embedded as a
state transformer it returns its result together with the final state
of the receiver. Its body only reads `t.Status.Conditions` and never
assigns, so the final state is the initial one. -/
def Task.HasConditionExec (t : Task) (cType : TaskConditionType)
    (cStatus : ConditionStatus) : Bool × Task :=
  (hasConditionList t.status.conditions cType cStatus, t)

/-- Option lists as the repository constructs them: every option in the
code is `WithTaskConditionMessage`. -/
def msgOpts (ms : List String) : List TaskSetConditionOption :=
  ms.map WithTaskConditionMessage

/-- Number of entries of a given type in a condition sequence. -/
def countType (cs : List TaskCondition) (T : TaskConditionType) : Nat :=
  match cs with
  | [] => 0
  | c :: rest => (if c.type = T then 1 else 0) + countType rest T

/-- First entry of a given type in a condition sequence, if any. -/
def findType (cs : List TaskCondition) (T : TaskConditionType) : Option TaskCondition :=
  match cs with
  | [] => none
  | c :: rest => if c.type = T then some c else findType rest T

/-- The subsequence of entries of a given type, in order. -/
def selectType (cs : List TaskCondition) (T : TaskConditionType) : List TaskCondition :=
  match cs with
  | [] => []
  | c :: rest => if c.type = T then c :: selectType rest T else selectType rest T

/-- The subsequence of entries not of a given type, in order. -/
def dropType (cs : List TaskCondition) (T : TaskConditionType) : List TaskCondition :=
  match cs with
  | [] => []
  | c :: rest => if c.type = T then dropType rest T else c :: dropType rest T

/-- A concrete task with populated spec and empty status, as an
external driver would create it. -/
def newTask : Task :=
  { typeMeta := "bmc.tinkerbell.org/v1alpha1,Task"
    objectMeta := "task-0"
    spec := { task := { powerAction := some "on", oneTimeBootDeviceAction := none }
              connection := "bmc-0" }
    status := { conditions := [], startTime := none, completionTime := none } }

/-- A concrete task whose conditions are `[{Completed, False}]`. -/
def taskCompletedFalse : Task :=
  { newTask with status := { newTask.status with
      conditions := [{ type := TaskCompleted, status := ConditionFalse, message := "" }] } }

/-- A concrete ill-formed task: two entries of type `Completed`. -/
def dupTask : Task :=
  { newTask with status := { newTask.status with
      conditions :=
        [{ type := TaskCompleted, status := ConditionFalse, message := "" },
         { type := TaskCompleted, status := ConditionTrue, message := "old" }] } }

/-! ### Helper lemmas -/

lemma applyOpts_msgOpts_type (ms : List String) (c : TaskCondition) :
    (applyOpts (msgOpts ms) c).type = c.type := by
  induction ms generalizing c with
  | nil => rfl
  | cons m ms ih =>
    simpa [msgOpts, applyOpts, WithTaskConditionMessage,
      List.foldl_cons] using ih ({ c with message := m })

lemma applyOpts_msgOpts_status (ms : List String) (c : TaskCondition) :
    (applyOpts (msgOpts ms) c).status = c.status := by
  induction ms generalizing c with
  | nil => rfl
  | cons m ms ih =>
    simpa [msgOpts, applyOpts, WithTaskConditionMessage,
      List.foldl_cons] using ih ({ c with message := m })

lemma applyOpts_msgOpts_message (ms : List String) (m : String) (c : TaskCondition) :
    (applyOpts (msgOpts (ms ++ [m])) c).message = m := by
  simp [msgOpts, applyOpts, List.foldl_append, WithTaskConditionMessage]

lemma countType_eq_zero_iff (cs : List TaskCondition) (T : TaskConditionType) :
    countType cs T = 0 ↔ ∀ c ∈ cs, c.type ≠ T := by
  induction cs with
  | nil => simp [countType]
  | cons c rest ih =>
    by_cases h : c.type = T
    · simp [countType, h]
    · simp [countType, h, ih]

lemma setConditionList_countType_self
    (opts : List TaskSetConditionOption)
    (hT : ∀ c, (applyOpts opts c).type = c.type)
    (cs : List TaskCondition) (T : TaskConditionType) (S : ConditionStatus) :
    countType (setConditionList cs T S opts) T = max (countType cs T) 1 := by
  induction cs with
  | nil => simp [setConditionList, countType, hT]
  | cons c rest ih =>
    by_cases h : c.type = T
    · simp [setConditionList, countType, h, hT, Nat.max_eq_left (Nat.le_add_right 1 _)]
    · simp [setConditionList, countType, h, ih]

lemma setConditionList_countType_other
    (opts : List TaskSetConditionOption)
    (hT : ∀ c, (applyOpts opts c).type = c.type)
    (cs : List TaskCondition) (T T2 : TaskConditionType) (S : ConditionStatus)
    (hne : T2 ≠ T) :
    countType (setConditionList cs T S opts) T2 = countType cs T2 := by
  induction cs with
  | nil => simp [setConditionList, countType, hT, Ne.symm hne]
  | cons c rest ih =>
    by_cases h : c.type = T
    · have hcT2 : ¬ c.type = T2 := by rw [h]; exact Ne.symm hne
      simp [setConditionList, countType, h, hT, hcT2, Ne.symm hne]
    · simp [setConditionList, countType, h, ih]

/-- Under the uniqueness invariant for `T`, every type-`T` entry of the
result of `setConditionList` is the freshly written one: the options
applied to the found entry with its status set, or to a new zero-valued
entry with status set. -/
lemma setConditionList_mem_type
    (opts : List TaskSetConditionOption)
    (cs : List TaskCondition) (T : TaskConditionType) (S : ConditionStatus)
    (hwf : countType cs T ≤ 1) :
    ∀ c ∈ setConditionList cs T S opts, c.type = T →
      c = applyOpts opts (match findType cs T with
        | some c0 => { c0 with status := S }
        | none => { type := T, status := S, message := "" }) := by
  induction cs with
  | nil =>
    intro c hc _
    simp [setConditionList] at hc
    simp [findType, hc]
  | cons c0 rest ih =>
    by_cases h : c0.type = T
    · have hrest : countType rest T = 0 := by
        have := hwf
        simp [countType, h] at this
        omega
      intro c hc hcT
      simp [setConditionList, h] at hc
      rcases hc with hc | hc
      · simp [findType, h, hc]
      · exact absurd hcT (((countType_eq_zero_iff rest T).mp hrest) c hc)
    · have hwf' : countType rest T ≤ 1 := by
        simpa [countType, h] using hwf
      intro c hc hcT
      simp [setConditionList, h] at hc
      rcases hc with hc | hc
      · exact absurd (hc ▸ hcT) h
      · simpa [findType, h] using ih hwf' c hc hcT

/-- `setConditionList` finds the first entry of the given type and
rewrites it in place; everything else keeps its position. -/
lemma setConditionList_found
    (opts : List TaskSetConditionOption)
    (pre post : List TaskCondition) (c : TaskCondition)
    (T : TaskConditionType) (S : ConditionStatus)
    (hpre : ∀ c2 ∈ pre, c2.type ≠ T) (hc : c.type = T) :
    setConditionList (pre ++ c :: post) T S opts =
      pre ++ applyOpts opts { c with status := S } :: post := by
  induction pre with
  | nil => simp [setConditionList, hc]
  | cons p pre ih =>
    have hp : p.type ≠ T := hpre p (List.mem_cons_self p pre)
    have hrest : ∀ c2 ∈ pre, c2.type ≠ T := fun c2 h2 => hpre c2 (List.mem_cons_of_mem p h2)
    simp [setConditionList, hp, ih hrest]

/-- When no entry of the given type exists, `setConditionList` appends
the new entry at the end. -/
lemma setConditionList_notfound
    (opts : List TaskSetConditionOption)
    (cs : List TaskCondition) (T : TaskConditionType) (S : ConditionStatus)
    (h : ∀ c ∈ cs, c.type ≠ T) :
    setConditionList cs T S opts =
      cs ++ [applyOpts opts { type := T, status := S, message := "" }] := by
  induction cs with
  | nil => simp [setConditionList]
  | cons c rest ih =>
    have hc : c.type ≠ T := h c (List.mem_cons_self c rest)
    have hrest : ∀ c2 ∈ rest, c2.type ≠ T := fun c2 h2 => h c2 (List.mem_cons_of_mem c h2)
    simp [setConditionList, hc, ih hrest]

/-- The first entry of the written type after `setConditionList`. -/
lemma setConditionList_findType
    (opts : List TaskSetConditionOption)
    (hT : ∀ c, (applyOpts opts c).type = c.type)
    (cs : List TaskCondition) (T : TaskConditionType) (S : ConditionStatus) :
    findType (setConditionList cs T S opts) T =
      some (applyOpts opts (match findType cs T with
        | some c0 => { c0 with status := S }
        | none => { type := T, status := S, message := "" })) := by
  induction cs with
  | nil => simp [setConditionList, findType, hT]
  | cons c rest ih =>
    by_cases h : c.type = T
    · simp [setConditionList, findType, h, hT]
    · simp [setConditionList, findType, h, ih]

/-- `hasConditionList` answers at the first entry of the given type. -/
lemma hasConditionList_eq_findType
    (cs : List TaskCondition) (T : TaskConditionType) (S : ConditionStatus) :
    hasConditionList cs T S = (match findType cs T with
      | some c => decide (c.status = S)
      | none => false) := by
  induction cs with
  | nil => simp [hasConditionList, findType]
  | cons c rest ih =>
    by_cases h : c.type = T
    · simp [hasConditionList, findType, h]
    · simp [hasConditionList, findType, h, ih]

lemma findType_found
    (pre post : List TaskCondition) (c : TaskCondition) (T : TaskConditionType)
    (hpre : ∀ c2 ∈ pre, c2.type ≠ T) (hc : c.type = T) :
    findType (pre ++ c :: post) T = some c := by
  induction pre with
  | nil => simp [findType, hc]
  | cons p pre ih =>
    have hp : p.type ≠ T := hpre p (List.mem_cons_self p pre)
    have hrest : ∀ c2 ∈ pre, c2.type ≠ T := fun c2 h2 => hpre c2 (List.mem_cons_of_mem p h2)
    simp [findType, hp, ih hrest]

/-- Writing type `T1` does not change the subsequence of entries of a
different type `T2`. -/
lemma selectType_setConditionList
    (opts : List TaskSetConditionOption)
    (hT : ∀ c, (applyOpts opts c).type = c.type)
    (cs : List TaskCondition) (T1 T2 : TaskConditionType) (S : ConditionStatus)
    (hne : T2 ≠ T1) :
    selectType (setConditionList cs T1 S opts) T2 = selectType cs T2 := by
  induction cs with
  | nil => simp [setConditionList, selectType, hT, Ne.symm hne]
  | cons c rest ih =>
    by_cases h : c.type = T1
    · have hcT2 : ¬ c.type = T2 := by rw [h]; exact Ne.symm hne
      simp [setConditionList, selectType, h, hT, hcT2, Ne.symm hne]
    · simp only [setConditionList, if_neg h]
      by_cases h2 : c.type = T2
      · simp [selectType, h2, ih]
      · simp [selectType, h2, ih]

/-- Writing type `T` does not change the subsequence of entries of all
other types, in their relative order. -/
lemma dropType_setConditionList
    (opts : List TaskSetConditionOption)
    (hT : ∀ c, (applyOpts opts c).type = c.type)
    (cs : List TaskCondition) (T : TaskConditionType) (S : ConditionStatus) :
    dropType (setConditionList cs T S opts) T = dropType cs T := by
  induction cs with
  | nil => simp [setConditionList, dropType, hT]
  | cons c rest ih =>
    by_cases h : c.type = T
    · simp [setConditionList, dropType, h, hT]
    · simp [setConditionList, dropType, h, ih]

lemma SetCondition_conditions (t : Task) (T : TaskConditionType) (S : ConditionStatus)
    (opts : List TaskSetConditionOption) :
    (t.SetCondition T S opts).status.conditions =
      setConditionList t.status.conditions T S opts := rfl

example : (newTask.SetCondition TaskFailed ConditionTrue
    [WithTaskConditionMessage "boot device set failed"]).status.conditions =
    [{ type := TaskFailed, status := ConditionTrue, message := "boot device set failed" }] := by
  decide

example : (taskCompletedFalse.SetCondition TaskCompleted ConditionTrue []).status.conditions =
    [{ type := TaskCompleted, status := ConditionTrue, message := "" }] := by
  decide

example : taskCompletedFalse.HasCondition TaskCompleted ConditionFalse = true := by decide

example : taskCompletedFalse.HasCondition TaskFailed ConditionFalse = false := by decide

end Rufio

namespace Rufio

/-! ### Claim theorems -/

/-- C1: after `SetCondition(T, S, opts...)` on a task satisfying the
uniqueness invariant for `T`, exactly one condition of type `T` exists,
it has status `S`, and when the options end in a message option its
message is that message; calling `SetCondition(T, S1)` then
`SetCondition(T, S2)` leaves exactly one condition of type `T` with
status `S2`, with no duplicate or stale entries. Option lists are
quantified as the repository constructs them, via
`WithTaskConditionMessage`. -/
theorem setCondition_exactly_one_with_status
    (t : Task) (T : TaskConditionType) (S S1 S2 : ConditionStatus) (ms : List String)
    (hwf : countType t.status.conditions T ≤ 1) :
    countType (t.SetCondition T S (msgOpts ms)).status.conditions T = 1
    ∧ (∀ c ∈ (t.SetCondition T S (msgOpts ms)).status.conditions,
        c.type = T → c.status = S)
    ∧ (∀ ms2 m, ms = ms2 ++ [m] →
        ∀ c ∈ (t.SetCondition T S (msgOpts ms)).status.conditions,
          c.type = T → c.message = m)
    ∧ countType ((t.SetCondition T S1 []).SetCondition T S2 []).status.conditions T = 1
    ∧ (∀ c ∈ ((t.SetCondition T S1 []).SetCondition T S2 []).status.conditions,
        c.type = T → c.status = S2) := by
  have hT := applyOpts_msgOpts_type ms
  have hnilT : ∀ c, (applyOpts [] c).type = c.type := fun _ => rfl
  have hwf1 : countType ((t.SetCondition T S1 []).status.conditions) T ≤ 1 := by
    rw [SetCondition_conditions, setConditionList_countType_self [] hnilT]
    exact Nat.max_le.mpr ⟨hwf, Nat.le_refl 1⟩
  refine ⟨?_, ?_, ?_, ?_, ?_⟩
  · rw [SetCondition_conditions, setConditionList_countType_self (msgOpts ms) hT]
    exact Nat.max_eq_right hwf
  · intro c hc hcT
    have h := setConditionList_mem_type (msgOpts ms) t.status.conditions T S hwf c hc hcT
    rcases hf : findType t.status.conditions T with _ | c0 <;> rw [hf] at h <;>
      simp only at h <;> rw [h] <;>
      simpa using applyOpts_msgOpts_status ms _
  · rintro ms2 m rfl c hc hcT
    have h := setConditionList_mem_type (msgOpts (ms2 ++ [m]))
      t.status.conditions T S hwf c hc hcT
    rcases hf : findType t.status.conditions T with _ | c0 <;> rw [hf] at h <;>
      simp only at h <;> rw [h] <;>
      exact applyOpts_msgOpts_message ms2 m _
  · rw [SetCondition_conditions, setConditionList_countType_self [] hnilT]
    exact Nat.max_eq_right hwf1
  · intro c hc hcT
    have h := setConditionList_mem_type []
      ((t.SetCondition T S1 []).status.conditions) T S2 hwf1 c hc hcT
    rcases hf : findType ((t.SetCondition T S1 []).status.conditions) T with _ | c0 <;>
      rw [hf] at h <;> simp only [applyOpts] at h <;> rw [h] <;> rfl

/-- C1 witness: a concrete instance of the theorem with its invariant
hypothesis discharged by evaluation. -/
theorem setCondition_exactly_one_with_status_witness :
    countType ((taskCompletedFalse.SetCondition TaskCompleted ConditionTrue
      (msgOpts ["a", "b"])).status.conditions) TaskCompleted = 1 :=
  (setCondition_exactly_one_with_status taskCompletedFalse TaskCompleted
    ConditionTrue ConditionTrue ConditionFalse ["a", "b"] (by decide)).1

/-- C2: `SetCondition(T1, ...)` leaves the entries of every other type
`T2` unchanged, keeps the relative order of all non-`T1` entries, and
writes nothing outside the condition sequence: spec, start time,
completion time and metadata are untouched. -/
theorem setCondition_frame
    (t : Task) (T1 T2 : TaskConditionType) (S : ConditionStatus) (ms : List String)
    (hne : T1 ≠ T2) :
    selectType (t.SetCondition T1 S (msgOpts ms)).status.conditions T2
      = selectType t.status.conditions T2
    ∧ dropType (t.SetCondition T1 S (msgOpts ms)).status.conditions T1
      = dropType t.status.conditions T1
    ∧ (t.SetCondition T1 S (msgOpts ms)).spec = t.spec
    ∧ (t.SetCondition T1 S (msgOpts ms)).status.startTime = t.status.startTime
    ∧ (t.SetCondition T1 S (msgOpts ms)).status.completionTime = t.status.completionTime
    ∧ (t.SetCondition T1 S (msgOpts ms)).typeMeta = t.typeMeta
    ∧ (t.SetCondition T1 S (msgOpts ms)).objectMeta = t.objectMeta := by
  have hT := applyOpts_msgOpts_type ms
  refine ⟨?_, ?_, rfl, rfl, rfl, rfl, rfl⟩
  · rw [SetCondition_conditions]
    exact selectType_setConditionList (msgOpts ms) hT t.status.conditions T1 T2 S (Ne.symm hne)
  · rw [SetCondition_conditions]
    exact dropType_setConditionList (msgOpts ms) hT t.status.conditions T1 S

/-- C2 witness: a concrete instance with the distinctness hypothesis
discharged by evaluation. -/
theorem setCondition_frame_witness :
    selectType ((taskCompletedFalse.SetCondition TaskFailed ConditionTrue
        (msgOpts ["oops"])).status.conditions) TaskCompleted
      = selectType taskCompletedFalse.status.conditions TaskCompleted
    ∧ (taskCompletedFalse.SetCondition TaskFailed ConditionTrue
        (msgOpts ["oops"])).spec = taskCompletedFalse.spec :=
  ⟨(setCondition_frame taskCompletedFalse TaskFailed TaskCompleted ConditionTrue
      ["oops"] (by decide)).1,
   (setCondition_frame taskCompletedFalse TaskFailed TaskCompleted ConditionTrue
      ["oops"] (by decide)).2.2.1⟩

end Rufio

namespace Rufio

/-- C3: `HasCondition(T, S)` is true exactly when the first condition
entry of type `T` has status `S`; it is false when no entry of type `T`
exists (absence is not an error) and when that entry has a different
status. -/
theorem hasCondition_first_entry_spec
    (t : Task) (T : TaskConditionType) (S : ConditionStatus) :
    t.HasCondition T S = (match findType t.status.conditions T with
      | some c => decide (c.status = S)
      | none => false) :=
  hasConditionList_eq_findType t.status.conditions T S

/-- C4: `SetCondition` preserves the uniqueness invariant: when every
condition type occurs at most once before the call, every condition
type still occurs at most once after it. -/
theorem setCondition_preserves_uniqueness
    (t : Task) (T : TaskConditionType) (S : ConditionStatus) (ms : List String)
    (hwf : ∀ T2, countType t.status.conditions T2 ≤ 1) :
    ∀ T2, countType (t.SetCondition T S (msgOpts ms)).status.conditions T2 ≤ 1 := by
  intro T2
  have hT := applyOpts_msgOpts_type ms
  rw [SetCondition_conditions]
  by_cases h : T2 = T
  · subst h
    rw [setConditionList_countType_self (msgOpts ms) hT]
    exact Nat.max_le.mpr ⟨hwf T2, Nat.le_refl 1⟩
  · rw [setConditionList_countType_other (msgOpts ms) hT t.status.conditions T T2 S h]
    exact hwf T2

/-- C4 witness: a concrete instance with the invariant hypothesis
discharged by evaluation. -/
theorem setCondition_preserves_uniqueness_witness :
    countType ((taskCompletedFalse.SetCondition TaskFailed ConditionTrue
      (msgOpts ["boom"])).status.conditions) TaskCompleted ≤ 1 :=
  setCondition_preserves_uniqueness taskCompletedFalse TaskFailed ConditionTrue
    ["boom"]
    (by
      intro T2
      by_cases h : (TaskCompleted : TaskConditionType) = T2 <;>
        simp [taskCompletedFalse, newTask, countType, h])
    TaskCompleted

/-- C5: a condition of the given type is updated in place at its
current position; when none exists the new entry is appended at the
end; concretely, on conditions `[{Completed, False}]` the call
`SetCondition(Completed, True)` yields `[{Completed, True}]`. -/
theorem setCondition_in_place_or_append
    (T : TaskConditionType) (S : ConditionStatus) (ms : List String) :
    (∀ (t : Task) (pre post : List TaskCondition) (c : TaskCondition),
        t.status.conditions = pre ++ c :: post →
        (∀ c2 ∈ pre, c2.type ≠ T) → c.type = T →
        (t.SetCondition T S (msgOpts ms)).status.conditions =
          pre ++ applyOpts (msgOpts ms) { c with status := S } :: post)
    ∧ (∀ t : Task, (∀ c ∈ t.status.conditions, c.type ≠ T) →
        (t.SetCondition T S (msgOpts ms)).status.conditions =
          t.status.conditions ++
            [applyOpts (msgOpts ms) { type := T, status := S, message := "" }])
    ∧ (taskCompletedFalse.SetCondition TaskCompleted ConditionTrue []).status.conditions =
        [{ type := TaskCompleted, status := ConditionTrue, message := "" }] := by
  refine ⟨?_, ?_, by decide⟩
  · intro t pre post c hconds hpre hc
    rw [SetCondition_conditions, hconds]
    exact setConditionList_found (msgOpts ms) pre post c T S hpre hc
  · intro t h
    rw [SetCondition_conditions]
    exact setConditionList_notfound (msgOpts ms) t.status.conditions T S h

/-- C5 witness: the in-place branch of the theorem applied at a
concrete task, with its hypotheses discharged by evaluation. -/
theorem setCondition_in_place_or_append_witness :
    (taskCompletedFalse.SetCondition TaskCompleted ConditionTrue (msgOpts [])).status.conditions =
      [] ++ applyOpts (msgOpts [])
        { type := TaskCompleted, status := ConditionTrue, message := "" } :: [] :=
  (setCondition_in_place_or_append TaskCompleted ConditionTrue []).1
    taskCompletedFalse [] []
    { type := TaskCompleted, status := ConditionFalse, message := "" }
    rfl (by simp) (by decide)

end Rufio

namespace Rufio

/-- C6: a message option applied during `SetCondition` puts that
message on the resulting entry of that type; concretely, on a new
task with empty status, `SetCondition(Failed, True, WithMessage(...))`
yields exactly that single entry, with `HasCondition(Failed, True)`
true and `HasCondition(Completed, True)` false. -/
theorem setCondition_with_message
    : (∀ (t : Task) (T : TaskConditionType) (S : ConditionStatus) (m : String),
        ∃ c, findType (t.SetCondition T S
            [WithTaskConditionMessage m]).status.conditions T = some c
          ∧ c.status = S ∧ c.message = m)
    ∧ (newTask.SetCondition TaskFailed ConditionTrue
        [WithTaskConditionMessage "boot device set failed"]).status.conditions =
        [{ type := TaskFailed, status := ConditionTrue,
           message := "boot device set failed" }]
    ∧ (newTask.SetCondition TaskFailed ConditionTrue
        [WithTaskConditionMessage "boot device set failed"]).HasCondition
          TaskFailed ConditionTrue = true
    ∧ (newTask.SetCondition TaskFailed ConditionTrue
        [WithTaskConditionMessage "boot device set failed"]).HasCondition
          TaskCompleted ConditionTrue = false := by
  refine ⟨?_, by decide, by decide, by decide⟩
  intro t T S m
  have hT := applyOpts_msgOpts_type [m]
  have hfind := setConditionList_findType (msgOpts [m]) hT t.status.conditions T S
  rcases hf : findType t.status.conditions T with _ | c0 <;> rw [hf] at hfind <;>
    simp only at hfind <;>
    exact ⟨_, hfind, applyOpts_msgOpts_status [m] _, applyOpts_msgOpts_message [] m _⟩

/-- C7: `SetCondition` and `HasCondition` are total: for every task,
type, status and option list they produce a result; there is no error
outcome. In the embedding both are structurally recursive functions
returning plain values, not `Option` or `Except`. -/
theorem setCondition_hasCondition_total
    (t : Task) (T : TaskConditionType) (S : ConditionStatus) (ms : List String) :
    ∃ (t2 : Task) (b : Bool),
      t.SetCondition T S (msgOpts ms) = t2 ∧ t.HasCondition T S = b
      ∧ (b = true ∨ b = false) :=
  ⟨_, _, rfl, rfl, by cases h : t.HasCondition T S <;> simp⟩

/-- C8: a later `SetCondition` on the same type with no options keeps
the previously set message: after `SetCondition(T, S1, WithMessage(m))`
then `SetCondition(T, S2)`, the condition of type `T` has status `S2`
and message `m`. -/
theorem setCondition_retains_message
    (t : Task) (T : TaskConditionType) (m : String) (S1 S2 : ConditionStatus) :
    ∃ c, findType ((t.SetCondition T S1
          [WithTaskConditionMessage m]).SetCondition T S2 []).status.conditions T = some c
      ∧ c.status = S2 ∧ c.message = m := by
  have hT1 := applyOpts_msgOpts_type [m]
  have h1 := setConditionList_findType (msgOpts [m]) hT1 t.status.conditions T S1
  have h2 := setConditionList_findType [] (fun _ => rfl)
    (setConditionList t.status.conditions T S1 (msgOpts [m])) T S2
  have hconds : ((t.SetCondition T S1
      [WithTaskConditionMessage m]).SetCondition T S2 []).status.conditions =
      setConditionList (setConditionList t.status.conditions T S1 (msgOpts [m])) T S2 [] := rfl
  rw [hconds]
  rcases hf : findType t.status.conditions T with _ | c0 <;> rw [hf] at h1 <;>
    simp only at h1 <;> rw [h1] at h2 <;>
    simp only [applyOpts, List.foldl_nil] at h2 <;>
    refine ⟨_, h2, rfl, ?_⟩
  · exact applyOpts_msgOpts_message [] m { type := T, status := S1, message := "" }
  · exact applyOpts_msgOpts_message [] m
      { type := c0.type, status := S1, message := c0.message }

/-- C9: on an ill-formed task whose conditions hold more than one entry
of type `T`, `SetCondition` rewrites only the first such entry, leaving
every later duplicate in place, and `HasCondition` answers from the
first such entry; duplicates are neither merged nor removed. -/
theorem setCondition_hasCondition_first_match_on_duplicates
    (t : Task) (pre post : List TaskCondition) (c1 : TaskCondition)
    (T : TaskConditionType) (S S2 : ConditionStatus) (ms : List String)
    (hconds : t.status.conditions = pre ++ c1 :: post)
    (hpre : ∀ c ∈ pre, c.type ≠ T) (hc1 : c1.type = T)
    (_hdup : ∃ c ∈ post, c.type = T) :
    (t.SetCondition T S (msgOpts ms)).status.conditions =
      pre ++ applyOpts (msgOpts ms) { c1 with status := S } :: post
    ∧ t.HasCondition T S2 = decide (c1.status = S2) := by
  constructor
  · rw [SetCondition_conditions, hconds]
    exact setConditionList_found (msgOpts ms) pre post c1 T S hpre hc1
  · show hasConditionList t.status.conditions T S2 = decide (c1.status = S2)
    rw [hasConditionList_eq_findType, hconds, findType_found pre post c1 T hpre hc1]

/-- C9 witness: the theorem applied to the concrete duplicate-bearing
task, with its hypotheses discharged by evaluation. -/
theorem setCondition_hasCondition_first_match_on_duplicates_witness :
    (dupTask.SetCondition TaskCompleted ConditionTrue (msgOpts [])).status.conditions =
      [] ++ applyOpts (msgOpts [])
        { type := TaskCompleted, status := ConditionTrue, message := "" } ::
          [{ type := TaskCompleted, status := ConditionTrue, message := "old" }]
    ∧ dupTask.HasCondition TaskCompleted ConditionTrue =
        decide ((ConditionFalse : ConditionStatus) = ConditionTrue) :=
  setCondition_hasCondition_first_match_on_duplicates dupTask []
    [{ type := TaskCompleted, status := ConditionTrue, message := "old" }]
    { type := TaskCompleted, status := ConditionFalse, message := "" }
    TaskCompleted ConditionTrue ConditionTrue [] rfl (by simp) (by decide)
    ⟨{ type := TaskCompleted, status := ConditionTrue, message := "old" },
      by simp, by decide⟩

/-- C10: `HasCondition` is a pure query: embedded as a state
transformer, its final receiver state is the initial one — spec,
condition sequence, start time and completion time are all unchanged —
and its result is the value of the pure function `HasCondition`. -/
theorem hasCondition_pure_query
    (t : Task) (T : TaskConditionType) (S : ConditionStatus) :
    (t.HasConditionExec T S).2 = t
    ∧ (t.HasConditionExec T S).2.spec = t.spec
    ∧ (t.HasConditionExec T S).2.status.conditions = t.status.conditions
    ∧ (t.HasConditionExec T S).2.status.startTime = t.status.startTime
    ∧ (t.HasConditionExec T S).2.status.completionTime = t.status.completionTime
    ∧ (t.HasConditionExec T S).1 = t.HasCondition T S :=
  ⟨rfl, rfl, rfl, rfl, rfl, rfl⟩

end Rufio
